import Mathlib

/-!
Verification of the blueprint markup subsystem of XTEAM-LINKX.

The definitions below are a shallow embedding of the client component
`src/components/BlueprintViewer.tsx` and of the API route
`src/app/api/blueprints/[id]/markup/route.ts`.  JavaScript numbers are
modelled as rationals, JavaScript array indexing and `slice` get explicit
total counterparts (`jsGet`, `sliceTo`) that return `none` / clamp exactly
as the runtime does, and the React `useState` cells of the component are
collected into one record `ViewerState`; each event handler becomes a
function `ViewerState → ViewerState`.
-/

namespace XTeam

/-- A point in the logical (blueprint) coordinate space, from the `Point`
interface of BlueprintViewer.tsx.  Coordinates are JS numbers, modelled as
rationals. -/
structure Point where
  x : ℚ
  y : ℚ
deriving DecidableEq

/-- The drawing tool currently selected, the four values of the
`currentTool` union type in BlueprintViewer.tsx. -/
inductive Tool where
  | pen
  | rectangle
  | circle
  | text
deriving DecidableEq

/-- One markup element, from the `DrawingElement` interface of
BlueprintViewer.tsx.  Optional fields are `Option`; `timestamp` is integer
milliseconds. -/
structure DrawingElement where
  id : String
  type : Tool
  points : Option (List Point) := none
  startX : Option ℚ := none
  startY : Option ℚ := none
  endX : Option ℚ := none
  endY : Option ℚ := none
  text : Option String := none
  color : String
  strokeWidth : Nat
  timestamp : Nat
deriving DecidableEq

/-- JavaScript array read `xs[i]`: `undefined` (here `none`) outside
`[0, length)`. -/
def jsGet {α : Type} (xs : List α) (i : Int) : Option α :=
  if i < 0 then none else xs.get? i.toNat

/-- JavaScript `xs.slice(0, stop)`: a negative `stop` counts from the end,
a `stop` past the length is clamped. -/
def sliceTo {α : Type} (xs : List α) (stop : Int) : List α :=
  if stop < 0 then xs.take ((xs.length + stop).toNat) else xs.take stop.toNat

/-- The `useState` cells of BlueprintViewer that the markup logic touches,
gathered into one record. -/
structure ViewerState where
  currentTool : Tool
  currentColor : String
  strokeWidth : Nat
  zoom : ℚ
  panX : ℚ
  panY : ℚ
  elements : List DrawingElement
  history : List (List DrawingElement)
  historyIndex : Int
  currentElement : Option DrawingElement
  isDrawing : Bool
  textInput : String
  textPosX : ℚ
  textPosY : ℚ
  showTextInput : Bool
deriving DecidableEq

/-- The initial values of the `useState` cells of BlueprintViewer: pen
tool, color `#238636`, stroke width 3, zoom 1, pan (0,0), no elements, an
empty history with `historyIndex = -1`. -/
def initState : ViewerState where
  currentTool := Tool.pen
  currentColor := "#238636"
  strokeWidth := 3
  zoom := 1
  panX := 0
  panY := 0
  elements := []
  history := []
  historyIndex := -1
  currentElement := none
  isDrawing := false
  textInput := ""
  textPosX := 0
  textPosY := 0
  showTextInput := false

/-- Outcome of `JSON.parse(initialMarkups)` followed by the
`Array.isArray` test in the initial-markups effect: the parse can throw
(`parseError`), return a non-array value (`nonArray`), or return an array
of elements. -/
inductive ParsedMarkups where
  | parseError
  | nonArray
  | array (ms : List DrawingElement)
deriving DecidableEq

/-- Body of the initial-markups `useEffect` before its `catch`: a thrown
`JSON.parse` error propagates as `Except.error`; a parsed array installs
the elements as `history = [markups]`, `historyIndex = 0`; a parsed
non-array value changes nothing. -/
def loadMarkupsBody (r : ParsedMarkups) (s : ViewerState) : Except String ViewerState :=
  match r with
  | ParsedMarkups.parseError => Except.error "Error parsing initial markups"
  | ParsedMarkups.nonArray => Except.ok s
  | ParsedMarkups.array ms =>
      Except.ok { s with elements := ms, history := [ms], historyIndex := 0 }

/-- The initial-markups `useEffect` of BlueprintViewer, `try`/`catch`
included: a decode failure is logged and leaves the state unchanged. -/
def loadMarkups (r : ParsedMarkups) (s : ViewerState) : ViewerState :=
  match loadMarkupsBody r s with
  | Except.ok t => t
  | Except.error _ => s

/-- The state of the viewer right after a successful load of decoded
markups `ms`: single-entry history seeded with `ms`. -/
def loadedState (ms : List DrawingElement) : ViewerState :=
  loadMarkups (ParsedMarkups.array ms) initState

/-- The `getCanvasPoint` callback of BlueprintViewer: converts client
(screen) coordinates to logical coordinates, given the bounding rectangle
origin of the canvas.  `x = (clientX - rect.left - pan.x * zoom) / zoom`,
symmetric for `y`. -/
def getCanvasPoint (clientX clientY rectLeft rectTop : ℚ) (s : ViewerState) : Point :=
  { x := (clientX - rectLeft - s.panX * s.zoom) / s.zoom
    y := (clientY - rectTop - s.panY * s.zoom) / s.zoom }

/-- The viewport transform the renderer applies in `drawElements`
(`ctx.scale(zoom, zoom)` then `ctx.translate(pan.x, pan.y)`): a logical
point is painted at device coordinate `zoom * (p + pan)` offset by the
canvas client origin. -/
def logicalToScreen (p : Point) (rectLeft rectTop : ℚ) (s : ViewerState) : Point :=
  { x := s.zoom * (p.x + s.panX) + rectLeft
    y := s.zoom * (p.y + s.panY) + rectTop }

/-- The history push shared by `handlePointerEnd`, `handleAddText` and
`clearAll`: truncate `history.slice(0, historyIndex + 1)`, append the new
element list, set the index to the new last position. -/
def pushSnapshot (newElements : List DrawingElement) (s : ViewerState) : ViewerState :=
  let newHistory := sliceTo s.history (s.historyIndex + 1) ++ [newElements]
  { s with elements := newElements
           history := newHistory
           historyIndex := (newHistory.length : Int) - 1 }

/-- Committing one finished element: append it to the element list and
push the result as a new snapshot (the core of `handlePointerEnd`). -/
def commitElement (e : DrawingElement) (s : ViewerState) : ViewerState :=
  pushSnapshot (s.elements ++ [e]) s

/-- The `handlePointerStart` callback: with the text tool, capture the
logical point and open the text input; otherwise start drawing with a
fresh in-progress element seeded at the point (`id` and `ts` stand for the
`Date.now()`-based id and timestamp). -/
def handlePointerStart (id : String) (ts : Nat) (clientX clientY rectLeft rectTop : ℚ)
    (s : ViewerState) : ViewerState :=
  let p := getCanvasPoint clientX clientY rectLeft rectTop s
  if s.currentTool = Tool.text then
    { s with textPosX := p.x, textPosY := p.y, showTextInput := true }
  else
    let base : DrawingElement :=
      { id := id, type := s.currentTool, color := s.currentColor
        strokeWidth := s.strokeWidth, timestamp := ts }
    let e := if s.currentTool = Tool.pen then
        { base with points := some [p] }
      else
        { base with startX := some p.x, startY := some p.y
                    endX := some p.x, endY := some p.y }
    { s with isDrawing := true, currentElement := some e }

/-- The `handlePointerMove` callback: while drawing, the pen appends the
current logical point to the path and the shape tools overwrite the end
point; otherwise nothing happens. -/
def handlePointerMove (clientX clientY rectLeft rectTop : ℚ) (s : ViewerState) : ViewerState :=
  match s.isDrawing, s.currentElement with
  | true, some e =>
      let p := getCanvasPoint clientX clientY rectLeft rectTop s
      if s.currentTool = Tool.pen then
        { s with currentElement := some { e with points := some (e.points.getD [] ++ [p]) } }
      else
        { s with currentElement := some { e with endX := some p.x, endY := some p.y } }
  | _, _ => s

/-- The `handlePointerEnd` callback: if a drawing is in progress, stop
drawing and commit the in-progress element. -/
def handlePointerEnd (s : ViewerState) : ViewerState :=
  match s.isDrawing, s.currentElement with
  | true, some e =>
      { commitElement e s with isDrawing := false, currentElement := none }
  | _, _ => s

/-- JavaScript `String.prototype.trim()`: strip leading and trailing
whitespace. -/
def jsTrim (s : String) : String :=
  String.mk (((s.data.dropWhile Char.isWhitespace).reverse.dropWhile
    Char.isWhitespace).reverse)

/-- The text element `handleAddText` builds when the input is kept: the
original untrimmed text, anchored at the captured position. -/
def textLabel (id : String) (ts : Nat) (s : ViewerState) : DrawingElement :=
  { id := id, type := Tool.text, text := some s.textInput
    startX := some s.textPosX, startY := some s.textPosY
    color := s.currentColor, strokeWidth := s.strokeWidth, timestamp := ts }

/-- The `handleAddText` callback: text that trims to the empty string only
closes the input; otherwise a text element is committed exactly like
`handlePointerEnd`, the input cleared and closed. -/
def handleAddText (id : String) (ts : Nat) (s : ViewerState) : ViewerState :=
  if jsTrim s.textInput = "" then
    { s with showTextInput := false }
  else
    { commitElement (textLabel id ts s) s with textInput := "", showTextInput := false }

/-- The Escape / Cancel path of the text overlay: close the input and
clear the pending text. -/
def cancelText (s : ViewerState) : ViewerState :=
  { s with showTextInput := false, textInput := "" }

/-- The `undo` callback: when `historyIndex > 0`, decrement the index and,
if `history[historyIndex - 1]` exists, render it. -/
def undo (s : ViewerState) : ViewerState :=
  if 0 < s.historyIndex then
    match jsGet s.history (s.historyIndex - 1) with
    | some prev => { s with historyIndex := s.historyIndex - 1, elements := prev }
    | none => { s with historyIndex := s.historyIndex - 1 }
  else s

/-- The `redo` callback: when `historyIndex < history.length - 1`,
increment the index and, if `history[historyIndex + 1]` exists, render
it. -/
def redo (s : ViewerState) : ViewerState :=
  if s.historyIndex < (s.history.length : Int) - 1 then
    match jsGet s.history (s.historyIndex + 1) with
    | some next => { s with historyIndex := s.historyIndex + 1, elements := next }
    | none => { s with historyIndex := s.historyIndex + 1 }
  else s

/-- The `clearAll` callback: render the empty list and push it as a new
snapshot. -/
def clearAll (s : ViewerState) : ViewerState :=
  pushSnapshot [] s

/-- The zoom-out button: `setZoom(Math.max(0.1, zoom - 0.1))`. -/
def zoomOut (s : ViewerState) : ViewerState :=
  { s with zoom := max (1/10) (s.zoom - 1/10) }

/-- The zoom-in button: `setZoom(Math.min(3, zoom + 0.1))`. -/
def zoomIn (s : ViewerState) : ViewerState :=
  { s with zoom := min 3 (s.zoom + 1/10) }

/-- The reset-view button: `setZoom(1); setPan({x: 0, y: 0})`. -/
def resetView (s : ViewerState) : ViewerState :=
  { s with zoom := 1, panX := 0, panY := 0 }

/-- Every user-visible operation of the viewer, for reachability
arguments: the load effect, tool and style selection, the pointer
handlers, the text overlay, undo / redo / clear and the viewport
buttons. -/
inductive Op where
  | load (r : ParsedMarkups)
  | selectTool (t : Tool)
  | setColor (c : String)
  | setStrokeWidth (w : Nat)
  | pointerStart (id : String) (ts : Nat) (clientX clientY rectLeft rectTop : ℚ)
  | pointerMove (clientX clientY rectLeft rectTop : ℚ)
  | pointerEnd
  | setTextInput (t : String)
  | confirmText (id : String) (ts : Nat)
  | cancelTextOp
  | undoOp
  | redoOp
  | clearOp
  | zoomInOp
  | zoomOutOp
  | resetViewOp

/-- Interpretation of one operation as the corresponding handler. -/
def stepOp (op : Op) (s : ViewerState) : ViewerState :=
  match op with
  | Op.load r => loadMarkups r s
  | Op.selectTool t => { s with currentTool := t }
  | Op.setColor c => { s with currentColor := c }
  | Op.setStrokeWidth w => { s with strokeWidth := w }
  | Op.pointerStart id ts cx cy rl rt => handlePointerStart id ts cx cy rl rt s
  | Op.pointerMove cx cy rl rt => handlePointerMove cx cy rl rt s
  | Op.pointerEnd => handlePointerEnd s
  | Op.setTextInput t => { s with textInput := t }
  | Op.confirmText id ts => handleAddText id ts s
  | Op.cancelTextOp => cancelText s
  | Op.undoOp => undo s
  | Op.redoOp => redo s
  | Op.clearOp => clearAll s
  | Op.zoomInOp => zoomIn s
  | Op.zoomOutOp => zoomOut s
  | Op.resetViewOp => resetView s

/-- Running a list of operations from a state. -/
def applyOps (ops : List Op) (s : ViewerState) : ViewerState :=
  ops.foldl (fun t op => stepOp op t) s

/-- A viewer state reachable from the component's initial state by some
sequence of operations. -/
def Reachable (s : ViewerState) : Prop :=
  ∃ ops : List Op, applyOps ops initState = s

/-- The History Manager invariant of the spec: the index is inside the
stack and the rendered element list is the entry at the index. -/
def HistoryInv (s : ViewerState) : Prop :=
  0 ≤ s.historyIndex ∧ s.historyIndex < (s.history.length : Int) ∧
    jsGet s.history s.historyIndex = some s.elements

instance (s : ViewerState) : Decidable (HistoryInv s) := by
  unfold HistoryInv
  infer_instance

/-- The zoom bound of the spec: `z ∈ [0.1, 3.0]`. -/
def ZoomInv (s : ViewerState) : Prop :=
  1/10 ≤ s.zoom ∧ s.zoom ≤ 3

/-- A sequence of commits, each appending one finished element. -/
def commitAll (es : List DrawingElement) (s : ViewerState) : ViewerState :=
  es.foldl (fun t e => commitElement e t) s

/-- The undo button pressed `n` times. -/
def undoN (n : Nat) (s : ViewerState) : ViewerState :=
  match n with
  | 0 => s
  | n + 1 => undoN n (undo s)

/-- Bounding box of the axis-aligned rectangle that
`ctx.strokeRect(x, y, w, h)` paints; the canvas normalizes a negative
width or height, so the box spans from the smaller to the larger corner
on each axis. -/
def strokeRectBox (x y w h : ℚ) : ℚ × ℚ × ℚ × ℚ :=
  (min x (x + w), min y (y + h), max x (x + w), max y (y + h))

/-- The rectangle case of `drawElements`: when all four coordinates are
present, `strokeRect(startX, startY, endX - startX, endY - startY)` is
painted; otherwise nothing. -/
def rectangleRenderBox (e : DrawingElement) : Option (ℚ × ℚ × ℚ × ℚ) :=
  match e.type, e.startX, e.startY, e.endX, e.endY with
  | Tool.rectangle, some sx, some sy, some ex, some ey =>
      some (strokeRectBox sx sy (ex - sx) (ey - sy))
  | _, _, _, _, _ => none

/-- The rectangle element produced by `handlePointerStart` (which seeds
`start = end = point`) followed by `handlePointerMove` (which overwrites
the end point with the latest position). -/
def rectangleElement (id color : String) (sw ts : Nat) (start stop : Point) : DrawingElement :=
  { id := id, type := Tool.rectangle
    startX := some start.x, startY := some start.y
    endX := some stop.x, endY := some stop.y
    color := color, strokeWidth := sw, timestamp := ts }

/-- A sample committed pen stroke, used to instantiate theorems. -/
def elemA : DrawingElement :=
  { id := "a", type := Tool.pen, points := some [⟨1, 1⟩, ⟨2, 2⟩]
    color := "#238636", strokeWidth := 3, timestamp := 1 }

/-- A sample committed rectangle, used to instantiate theorems. -/
def elemB : DrawingElement :=
  { id := "b", type := Tool.rectangle, startX := some 0, startY := some 0
    endX := some 5, endY := some 5, color := "#238636", strokeWidth := 3, timestamp := 2 }

/-- A sample committed circle, used to instantiate theorems. -/
def elemC : DrawingElement :=
  { id := "c", type := Tool.circle, startX := some 1, startY := some 1
    endX := some 4, endY := some 5, color := "#238636", strokeWidth := 3, timestamp := 3 }

/-- A named-save record, from the `blueprintMarkup` rows the markup route
creates (`NamedMarkupSave` of the spec). -/
structure MarkupRecord where
  blueprintId : String
  name : String
  markupData : String
  description : Option String
  isShared : Bool
  userId : Option String
deriving DecidableEq

/-- The request body of POST `/api/blueprints/[id]/markup`. -/
structure MarkupSaveBody where
  name : String
  markupData : String
  description : Option String := none
  isShared : Bool := false
  userId : Option String := none
deriving DecidableEq

/-- The slice of the store the markup route touches: which blueprint ids
exist, and the saved markup records, most recently created first (the
route lists by `updatedAt` descending, and records are never updated
after creation). -/
structure Database where
  blueprintIds : List String
  markups : List MarkupRecord
deriving DecidableEq

/-- The zod `MarkupSaveSchema` of the markup route: `name` and
`markupData` must have length at least 1 (`z.string().min(1)`); the other
fields are optional or defaulted and always pass for a typed body. -/
def markupSaveSchemaAccepts (b : MarkupSaveBody) : Bool :=
  decide (1 ≤ b.name.length) && decide (1 ≤ b.markupData.length)

/-- Modelled from the spec: `validateRequest` (in `lib/api-utils`, not
under src/) parses the request body and checks it against the zod schema,
failing with the schema message — a `ValidationError` — exactly when the
schema rejects it. -/
def validateMarkupSave (b : MarkupSaveBody) : Bool :=
  markupSaveSchemaAccepts b

/-- Outcome of a markup-route request: `apiSuccess` with the created
record, or `apiError` with a message and HTTP status. -/
inductive ApiOutcome where
  | success (record : MarkupRecord) (message : String)
  | failure (message : String) (status : Nat)
deriving DecidableEq

/-- The HTTP status of an outcome (`apiSuccess` responds 200). -/
def ApiOutcome.status : ApiOutcome → Nat
  | ApiOutcome.success _ _ => 200
  | ApiOutcome.failure _ s => s

/-- The POST handler of `/api/blueprints/[id]/markup`: reject a missing
blueprint id (400), an unknown blueprint (404), or a body the schema
rejects (400); otherwise create the record. -/
def postMarkup (db : Database) (blueprintId : String) (body : MarkupSaveBody) :
    ApiOutcome × Database :=
  if blueprintId = "" then
    (ApiOutcome.failure "Blueprint ID is required" 400, db)
  else if db.blueprintIds.contains blueprintId = false then
    (ApiOutcome.failure "Blueprint not found" 404, db)
  else if validateMarkupSave body = false then
    (ApiOutcome.failure "Markup name is required" 400, db)
  else
    let record : MarkupRecord :=
      { blueprintId := blueprintId, name := body.name, markupData := body.markupData
        description := body.description, isShared := body.isShared, userId := body.userId }
    (ApiOutcome.success record "Markup saved successfully",
      { db with markups := record :: db.markups })

/-- The GET handler of `/api/blueprints/[id]/markup`: all saved markups of
the blueprint, most recently updated first. -/
def getMarkups (db : Database) (blueprintId : String) : List MarkupRecord :=
  db.markups.filter (fun m => m.blueprintId == blueprintId)

/-- A store with one blueprint and no saved markups, used to instantiate
theorems. -/
def sampleDb : Database :=
  { blueprintIds := ["b1"], markups := [] }

/-- A save request whose name is empty, used to instantiate theorems. -/
def emptyNameBody : MarkupSaveBody :=
  { name := "", markupData := "[]" }

/-- A viewer state whose pending text is only whitespace, used to
instantiate theorems. -/
def blankTextState : ViewerState :=
  { initState with textInput := "   " }

/-- A viewer state with pending text that has non-whitespace content and
surrounding spaces, used to instantiate theorems. -/
def sampleTextState : ViewerState :=
  { initState with textInput := " hi " }

/-- JS `slice(0, k)` with a nonnegative stop is a `take`. -/
theorem sliceTo_of_nonneg {α : Type} (xs : List α) (k : Int) (h : 0 ≤ k) :
    sliceTo xs k = xs.take k.toNat := by
  unfold sliceTo
  rw [if_neg (by omega)]

/-- An in-bounds JS array read yields a value. -/
theorem jsGet_eq_some {α : Type} (xs : List α) (i : Int) (h0 : 0 ≤ i)
    (h1 : i < (xs.length : Int)) : ∃ a, jsGet xs i = some a := by
  unfold jsGet
  rw [if_neg (by omega)]
  cases hx : xs.get? i.toNat with
  | none =>
      have := List.get?_eq_none.mp hx
      omega
  | some a => exact ⟨a, rfl⟩

/-- Unfolded form of the history push. -/
theorem pushSnapshot_def (els : List DrawingElement) (s : ViewerState) :
    pushSnapshot els s =
      { s with elements := els
               history := sliceTo s.history (s.historyIndex + 1) ++ [els]
               historyIndex := ((sliceTo s.history (s.historyIndex + 1) ++ [els]).length : Int) - 1 } :=
  rfl

/-- Pushing a snapshot establishes the History Manager invariant from any
state: the pushed list becomes the last entry and the index points at
it. -/
theorem pushSnapshot_inv (els : List DrawingElement) (s : ViewerState) :
    HistoryInv (pushSnapshot els s) := by
  rw [pushSnapshot_def]
  unfold HistoryInv jsGet
  dsimp only
  have hget := List.get?_concat_length (sliceTo s.history (s.historyIndex + 1)) els
  simp only [List.length_append, List.length_cons, List.length_nil]
  refine ⟨by omega, by omega, ?_⟩
  rw [if_neg (by omega)]
  have hn : ((((sliceTo s.history (s.historyIndex + 1)).length + 1 : Nat) : Int) - 1).toNat
      = (sliceTo s.history (s.historyIndex + 1)).length := by omega
  rw [hn, hget]

/-- Undo never changes the history stack. -/
theorem undo_history (s : ViewerState) : (undo s).history = s.history := by
  unfold undo
  by_cases h0 : 0 < s.historyIndex
  · rw [if_pos h0]
    cases jsGet s.history (s.historyIndex - 1) <;> rfl
  · rw [if_neg h0]

/-- Redo never changes the history stack. -/
theorem redo_history (s : ViewerState) : (redo s).history = s.history := by
  unfold redo
  by_cases h0 : s.historyIndex < (s.history.length : Int) - 1
  · rw [if_pos h0]
    cases jsGet s.history (s.historyIndex + 1) <;> rfl
  · rw [if_neg h0]

/-- In an invariant state with room below, undo moves the index down one
step and renders the entry there. -/
theorem undo_step (s : ViewerState) (h : HistoryInv s) (h0 : 0 < s.historyIndex) :
    (undo s).history = s.history ∧ (undo s).historyIndex = s.historyIndex - 1 ∧
      jsGet s.history (s.historyIndex - 1) = some (undo s).elements ∧
      HistoryInv (undo s) := by
  obtain ⟨hi0, hi1, _⟩ := h
  obtain ⟨prev, hp⟩ := jsGet_eq_some s.history (s.historyIndex - 1) (by omega) (by omega)
  have hu : undo s = { s with historyIndex := s.historyIndex - 1, elements := prev } := by
    unfold undo
    rw [if_pos h0, hp]
  rw [hu]
  refine ⟨rfl, rfl, ?_, ?_, ?_, ?_⟩
  · show jsGet s.history (s.historyIndex - 1) = some prev
    exact hp
  · show (0 : Int) ≤ s.historyIndex - 1
    omega
  · show s.historyIndex - 1 < (s.history.length : Int)
    omega
  · show jsGet s.history (s.historyIndex - 1) = some prev
    exact hp

/-- In an invariant state with room above, redo moves the index up one
step and renders the entry there. -/
theorem redo_step (s : ViewerState) (h : HistoryInv s)
    (h0 : s.historyIndex < (s.history.length : Int) - 1) :
    (redo s).history = s.history ∧ (redo s).historyIndex = s.historyIndex + 1 ∧
      jsGet s.history (s.historyIndex + 1) = some (redo s).elements ∧
      HistoryInv (redo s) := by
  obtain ⟨hi0, hi1, _⟩ := h
  obtain ⟨next, hp⟩ := jsGet_eq_some s.history (s.historyIndex + 1) (by omega) (by omega)
  have hr : redo s = { s with historyIndex := s.historyIndex + 1, elements := next } := by
    unfold redo
    rw [if_pos h0, hp]
  rw [hr]
  refine ⟨rfl, rfl, ?_, ?_, ?_, ?_⟩
  · show jsGet s.history (s.historyIndex + 1) = some next
    exact hp
  · show (0 : Int) ≤ s.historyIndex + 1
    omega
  · show s.historyIndex + 1 < (s.history.length : Int)
    omega
  · show jsGet s.history (s.historyIndex + 1) = some next
    exact hp

/-- Undo preserves the History Manager invariant. -/
theorem undo_inv (s : ViewerState) (h : HistoryInv s) : HistoryInv (undo s) := by
  by_cases h0 : 0 < s.historyIndex
  · exact (undo_step s h h0).2.2.2
  · unfold undo
    rw [if_neg h0]
    exact h

/-- Redo preserves the History Manager invariant. -/
theorem redo_inv (s : ViewerState) (h : HistoryInv s) : HistoryInv (redo s) := by
  by_cases h0 : s.historyIndex < (s.history.length : Int) - 1
  · exact (redo_step s h h0).2.2.2
  · unfold redo
    rw [if_neg h0]
    exact h

/-- A successful load of an element array establishes the invariant: the
history becomes the single entry holding the loaded list. -/
theorem loadMarkups_array_inv (ms : List DrawingElement) (s : ViewerState) :
    HistoryInv (loadMarkups (ParsedMarkups.array ms) s) := by
  unfold loadMarkups loadMarkupsBody HistoryInv jsGet
  refine ⟨by norm_num, by simp, ?_⟩
  simp

/-- The load effect preserves the invariant: a decoded array reseeds a
valid single-entry history, any other outcome leaves the state alone. -/
theorem loadMarkups_inv (r : ParsedMarkups) (s : ViewerState) (h : HistoryInv s) :
    HistoryInv (loadMarkups r s) := by
  cases r with
  | parseError => exact h
  | nonArray => exact h
  | array ms => exact loadMarkups_array_inv ms s

/-- Every operation of the viewer preserves the History Manager
invariant. -/
theorem stepOp_inv (op : Op) (s : ViewerState) (h : HistoryInv s) :
    HistoryInv (stepOp op s) := by
  obtain ⟨tool, color, sw, z, px, py, els, hist, idx, cur, draw, ti, tx, ty, sti⟩ := s
  cases op with
  | load r => exact loadMarkups_inv r _ h
  | selectTool t => exact h
  | setColor c => exact h
  | setStrokeWidth w => exact h
  | pointerStart id ts cx cy rl rt =>
      unfold stepOp handlePointerStart
      dsimp only
      split
      · exact h
      · exact h
  | pointerMove cx cy rl rt =>
      unfold stepOp handlePointerMove
      cases draw <;> cases cur <;> (try exact h)
      dsimp only
      split
      · exact h
      · exact h
  | pointerEnd =>
      unfold stepOp handlePointerEnd
      cases draw <;> cases cur <;> (try exact h)
      exact pushSnapshot_inv _ _
  | setTextInput t => exact h
  | confirmText id ts =>
      unfold stepOp handleAddText
      dsimp only
      split
      · exact h
      · exact pushSnapshot_inv _ _
  | cancelTextOp => exact h
  | undoOp => exact undo_inv _ h
  | redoOp => exact redo_inv _ h
  | clearOp => exact pushSnapshot_inv _ _
  | zoomInOp => exact h
  | zoomOutOp => exact h
  | resetViewOp => exact h

/-- A commit from the top of the history appends one snapshot and moves
the index to it. -/
theorem commitElement_at_top (e : DrawingElement) (s : ViewerState) (h : HistoryInv s)
    (htop : s.historyIndex = (s.history.length : Int) - 1) :
    (commitElement e s).history = s.history ++ [s.elements ++ [e]] ∧
      (commitElement e s).historyIndex = (s.history.length : Int) := by
  obtain ⟨hi0, hi1, _⟩ := h
  have hs : sliceTo s.history (s.historyIndex + 1) = s.history := by
    rw [sliceTo_of_nonneg s.history (s.historyIndex + 1) (by omega)]
    have : (s.historyIndex + 1).toNat = s.history.length := by omega
    rw [this, List.take_length]
  unfold commitElement
  rw [pushSnapshot_def]
  refine ⟨by rw [hs], ?_⟩
  show ((sliceTo s.history (s.historyIndex + 1) ++ [s.elements ++ [e]]).length : Int) - 1
      = (s.history.length : Int)
  rw [hs]
  simp

/-- Committing a list of elements from the top of the history keeps the
invariant, leaves the index at the new top, grows the stack by one entry
per commit and never touches the original first entry. -/
theorem commitAll_spec (es : List DrawingElement) :
    ∀ s : ViewerState, HistoryInv s → s.historyIndex = (s.history.length : Int) - 1 →
      HistoryInv (commitAll es s) ∧
        (commitAll es s).historyIndex = ((commitAll es s).history.length : Int) - 1 ∧
        (commitAll es s).history.length = s.history.length + es.length ∧
        jsGet (commitAll es s).history 0 = jsGet s.history 0 := by
  induction es with
  | nil =>
      intro s h htop
      exact ⟨h, htop, rfl, rfl⟩
  | cons e es ih =>
      intro s h htop
      have hstep : commitAll (e :: es) s = commitAll es (commitElement e s) := rfl
      obtain ⟨hh, hidx⟩ := commitElement_at_top e s h htop
      have hinv : HistoryInv (commitElement e s) := pushSnapshot_inv _ _
      have hlen : (commitElement e s).history.length = s.history.length + 1 := by
        rw [hh]
        simp
      have htop2 : (commitElement e s).historyIndex
          = ((commitElement e s).history.length : Int) - 1 := by
        rw [hidx, hlen]
        push_cast
        ring
      obtain ⟨h1, h2, h3, h4⟩ := ih (commitElement e s) hinv htop2
      rw [hstep]
      refine ⟨h1, h2, ?_, ?_⟩
      · rw [h3, hlen, List.length_cons]
        omega
      · rw [h4, hh]
        have hpos : 0 < s.history.length := by
          obtain ⟨hi0, hi1, _⟩ := h
          omega
        unfold jsGet
        rw [if_neg (by omega), if_neg (by omega)]
        show (s.history ++ [s.elements ++ [e]]).get? 0 = s.history.get? 0
        exact List.get?_append (by omega)

/-- Undoing `k` times inside an invariant state moves the index down by
`k` without touching the stack. -/
theorem undoN_spec (k : Nat) :
    ∀ s : ViewerState, HistoryInv s → (k : Int) ≤ s.historyIndex →
      (undoN k s).history = s.history ∧
        (undoN k s).historyIndex = s.historyIndex - k ∧
        HistoryInv (undoN k s) := by
  induction k with
  | zero =>
      intro s h _
      exact ⟨rfl, by simp [undoN], h⟩
  | succ k ih =>
      intro s h hk
      have h0 : 0 < s.historyIndex := by omega
      obtain ⟨hh, hidx, _, hinv⟩ := undo_step s h h0
      have hstep : undoN (k + 1) s = undoN k (undo s) := rfl
      obtain ⟨h1, h2, h3⟩ := ih (undo s) hinv (by omega)
      rw [hstep]
      refine ⟨by rw [h1, hh], ?_, h3⟩
      rw [h2, hidx]
      push_cast
      ring

/-- The loaded state satisfies the invariant with a single-entry
history. -/
theorem loadedState_spec (ms : List DrawingElement) :
    HistoryInv (loadedState ms) ∧ (loadedState ms).history = [ms] ∧
      (loadedState ms).historyIndex = 0 ∧ (loadedState ms).elements = ms :=
  ⟨loadMarkups_array_inv ms initState, rfl, rfl, rfl⟩

/-- Each operation keeps the zoom inside `[0.1, 3]`. -/
theorem stepOp_zoomInv (op : Op) (s : ViewerState) (h : ZoomInv s) :
    ZoomInv (stepOp op s) := by
  obtain ⟨hlo, hhi⟩ := h
  obtain ⟨tool, color, sw, z, px, py, els, hist, idx, cur, draw, ti, tx, ty, sti⟩ := s
  cases op with
  | load r =>
      cases r with
      | parseError => exact ⟨hlo, hhi⟩
      | nonArray => exact ⟨hlo, hhi⟩
      | array ms => exact ⟨hlo, hhi⟩
  | selectTool t => exact ⟨hlo, hhi⟩
  | setColor c => exact ⟨hlo, hhi⟩
  | setStrokeWidth w => exact ⟨hlo, hhi⟩
  | pointerStart id ts cx cy rl rt =>
      unfold stepOp handlePointerStart
      dsimp only
      split
      · exact ⟨hlo, hhi⟩
      · exact ⟨hlo, hhi⟩
  | pointerMove cx cy rl rt =>
      unfold stepOp handlePointerMove
      cases draw <;> cases cur <;> (try exact ⟨hlo, hhi⟩)
      dsimp only
      split
      · exact ⟨hlo, hhi⟩
      · exact ⟨hlo, hhi⟩
  | pointerEnd =>
      unfold stepOp handlePointerEnd
      cases draw <;> cases cur <;> exact ⟨hlo, hhi⟩
  | setTextInput t => exact ⟨hlo, hhi⟩
  | confirmText id ts =>
      unfold stepOp handleAddText
      dsimp only
      split
      · exact ⟨hlo, hhi⟩
      · exact ⟨hlo, hhi⟩
  | cancelTextOp => exact ⟨hlo, hhi⟩
  | undoOp =>
      unfold stepOp undo
      dsimp only
      split
      · cases jsGet hist (idx - 1) <;> exact ⟨hlo, hhi⟩
      · exact ⟨hlo, hhi⟩
  | redoOp =>
      unfold stepOp redo
      dsimp only
      split
      · cases jsGet hist (idx + 1) <;> exact ⟨hlo, hhi⟩
      · exact ⟨hlo, hhi⟩
  | clearOp => exact ⟨hlo, hhi⟩
  | zoomInOp =>
      refine ⟨le_min (by norm_num) (by dsimp only at hlo ⊢; linarith), min_le_left _ _⟩
  | zoomOutOp =>
      refine ⟨le_max_left _ _, max_le (by norm_num) (by dsimp only at hhi ⊢; linarith)⟩
  | resetViewOp =>
      refine ⟨?_, ?_⟩
      · show (1 : ℚ)/10 ≤ 1
        norm_num
      · show (1 : ℚ) ≤ 3
        norm_num

/-- Running any operation sequence keeps the zoom inside `[0.1, 3]`. -/
theorem applyOps_zoomInv (ops : List Op) :
    ∀ s : ViewerState, ZoomInv s → ZoomInv (applyOps ops s) := by
  induction ops with
  | nil => exact fun s h => h
  | cons op ops ih =>
      intro s h
      exact ih (stepOp op s) (stepOp_zoomInv op s h)

/-- C1: starting from the initial single-entry history, after any
sequence of N commits, applying undo N times returns the rendered element
list to the pre-first-commit snapshot; and commit, undo and redo each
preserve the invariant that the rendered element list equals
`stack[index]`. -/
theorem commit_undo_returns_to_origin (ms es : List DrawingElement) :
    (undoN es.length (commitAll es (loadedState ms))).elements = ms ∧
      (∀ (s : ViewerState) (e : DrawingElement), HistoryInv s →
        HistoryInv (commitElement e s) ∧ HistoryInv (undo s) ∧ HistoryInv (redo s)) := by
  constructor
  · obtain ⟨hinv, hh, hidx, hel⟩ := loadedState_spec ms
    obtain ⟨h1, h2, h3, h4⟩ := commitAll_spec es (loadedState ms) hinv (by rw [hidx, hh]; simp)
    have hlen : (commitAll es (loadedState ms)).history.length = 1 + es.length := by
      rw [h3, hh]
      simp
    have hidx2 : (commitAll es (loadedState ms)).historyIndex = (es.length : Int) := by
      rw [h2, hlen]
      push_cast
      ring
    obtain ⟨u1, u2, u3⟩ := undoN_spec es.length _ h1 (by rw [hidx2])
    have hfin : (undoN es.length (commitAll es (loadedState ms))).historyIndex = 0 := by
      rw [u2, hidx2]
      ring
    obtain ⟨f0, f1, f2⟩ := u3
    rw [hfin, u1, h4, hh] at f2
    have hms : jsGet [ms] 0 = some ms := rfl
    rw [hms] at f2
    exact (Option.some.inj f2).symm
  · exact fun s e h => ⟨pushSnapshot_inv _ _, undo_inv s h, redo_inv s h⟩

/-- Witness for C1: a concrete two-commit run returns to the empty
snapshot, and a concrete invariant state stays invariant under commit and
undo. -/
theorem commit_undo_returns_to_origin_witness :
    (undoN [elemA, elemB].length (commitAll [elemA, elemB] (loadedState []))).elements = [] ∧
      HistoryInv (undo (commitElement elemA (loadedState []))) :=
  ⟨(commit_undo_returns_to_origin [] [elemA, elemB]).1,
    ((commit_undo_returns_to_origin [] []).2 (commitElement elemA (loadedState [])) elemA
        (by decide)).2.1⟩

/-- C2: the history push truncates the stack to `[0..index]`, appends the
snapshot and points the index at the new last entry; concretely, after
commit A, commit B, one undo and commit C, redo is a no-op and the stack
is exactly `[[], [A], [A, C]]`. -/
theorem push_truncates_redo_branch :
    (∀ (s : ViewerState) (els : List DrawingElement), 0 ≤ s.historyIndex →
      (pushSnapshot els s).history = s.history.take (s.historyIndex.toNat + 1) ++ [els] ∧
        (pushSnapshot els s).historyIndex = ((pushSnapshot els s).history.length : Int) - 1) ∧
      (commitElement elemC (undo (commitElement elemB
          (commitElement elemA (loadedState []))))).history
          = [[], [elemA], [elemA, elemC]] ∧
        redo (commitElement elemC (undo (commitElement elemB
            (commitElement elemA (loadedState [])))))
          = commitElement elemC (undo (commitElement elemB
              (commitElement elemA (loadedState [])))) := by
  refine ⟨?_, by decide, by decide⟩
  intro s els h0
  rw [pushSnapshot_def]
  refine ⟨?_, rfl⟩
  show sliceTo s.history (s.historyIndex + 1) ++ [els]
      = s.history.take (s.historyIndex.toNat + 1) ++ [els]
  rw [sliceTo_of_nonneg _ _ (by omega)]
  have hn : (s.historyIndex + 1).toNat = s.historyIndex.toNat + 1 := by omega
  rw [hn]

/-- Witness for C2: the push property evaluated at the freshly loaded
empty history. -/
theorem push_truncates_redo_branch_witness :
    (pushSnapshot [elemA] (loadedState [])).history
        = (loadedState []).history.take ((loadedState []).historyIndex.toNat + 1) ++ [[elemA]] ∧
      (pushSnapshot [elemA] (loadedState [])).historyIndex
        = ((pushSnapshot [elemA] (loadedState [])).history.length : Int) - 1 :=
  push_truncates_redo_branch.1 (loadedState []) [elemA] (by decide)

/-- C3 counterexample: the state reached by loading markups that fail to
decode is a reachable viewer state whose history index is `-1` with an
empty stack, so the claimed invariant does not hold in every reachable
state. -/
theorem history_invariant_counterexample :
    Reachable (applyOps [Op.load ParsedMarkups.parseError] initState) ∧
      ¬ HistoryInv (applyOps [Op.load ParsedMarkups.parseError] initState) :=
  ⟨⟨[Op.load ParsedMarkups.parseError], rfl⟩, by decide⟩

/-- C3 (amended): every viewer operation preserves the History Manager
invariant `0 ≤ index < length ∧ rendered = stack[index]`, and a
successful initial load establishes it; only the states before a
successful load (the mount state, and the state left by a failed decode)
violate it. -/
theorem history_invariant_preserved :
    (∀ (s : ViewerState) (op : Op), HistoryInv s → HistoryInv (stepOp op s)) ∧
      ∀ ms : List DrawingElement, HistoryInv (loadedState ms) :=
  ⟨fun s op h => stepOp_inv op s h, fun ms => loadMarkups_array_inv ms initState⟩

/-- Witness for C3: the invariant holds after loading one element and is
preserved by an undo. -/
theorem history_invariant_preserved_witness :
    HistoryInv (stepOp Op.undoOp (loadedState [elemA])) :=
  history_invariant_preserved.1 (loadedState [elemA]) Op.undoOp (by decide)

/-- C4: within the supported zoom range, `getCanvasPoint` is the exact
inverse of the renderer transform (scale by zoom, then translate by pan),
and it computes `logicalX = (deviceX - originX - panX * zoom) / zoom`,
symmetrically for Y. -/
theorem screen_logical_roundtrip (p : Point) (rectLeft rectTop : ℚ) (s : ViewerState)
    (hlo : 1/10 ≤ s.zoom) (hhi : s.zoom ≤ 3) :
    getCanvasPoint (logicalToScreen p rectLeft rectTop s).x
        (logicalToScreen p rectLeft rectTop s).y rectLeft rectTop s = p ∧
      ∀ cX cY : ℚ, getCanvasPoint cX cY rectLeft rectTop s =
        { x := (cX - rectLeft - s.panX * s.zoom) / s.zoom
          y := (cY - rectTop - s.panY * s.zoom) / s.zoom } := by
  have hz : (0 : ℚ) < s.zoom := by linarith
  have hz0 : s.zoom ≠ 0 := ne_of_gt hz
  constructor
  · obtain ⟨px0, py0⟩ := p
    simp only [getCanvasPoint, logicalToScreen, Point.mk.injEq]
    constructor <;> (field_simp; ring)
  · intro cX cY
    rfl

/-- Witness for C4: the round trip at a concrete point with the default
viewport. -/
theorem screen_logical_roundtrip_witness :
    getCanvasPoint (logicalToScreen ⟨5, 7⟩ 2 3 initState).x
        (logicalToScreen ⟨5, 7⟩ 2 3 initState).y 2 3 initState = ⟨5, 7⟩ :=
  (screen_logical_roundtrip ⟨5, 7⟩ 2 3 initState (by norm_num [initState])
    (by norm_num [initState])).1

/-- C5: the load effect is total — any decode outcome that is not an
element array (a parse error, or a non-array value) leaves the state
unchanged, so the freshly mounted viewer renders the empty element list
rather than failing. -/
theorem load_malformed_safe (r : ParsedMarkups) (s : ViewerState)
    (h : ∀ ms : List DrawingElement, r ≠ ParsedMarkups.array ms) :
    loadMarkups r s = s ∧ (loadMarkups r initState).elements = [] := by
  cases r with
  | parseError => exact ⟨rfl, rfl⟩
  | nonArray => exact ⟨rfl, rfl⟩
  | array ms => exact absurd rfl (h ms)

/-- Witness for C5: a thrown `JSON.parse` (as on the input string
`"not json"`) leaves the mounted state unchanged with no elements. -/
theorem load_malformed_safe_witness :
    loadMarkups ParsedMarkups.parseError initState = initState ∧
      (loadMarkups ParsedMarkups.parseError initState).elements = [] :=
  load_malformed_safe ParsedMarkups.parseError initState
    (fun ms h => ParsedMarkups.noConfusion h)

/-- C6: a save request with an empty name is rejected by the markup POST
route with status 400, no record is created, and a subsequent list of the
named saves of the blueprint is unchanged. -/
theorem saveNamed_empty_name_rejected (db : Database) (blueprintId : String)
    (body : MarkupSaveBody) (hname : body.name = "") (hbid : blueprintId ≠ "")
    (hfound : db.blueprintIds.contains blueprintId = true) :
    (postMarkup db blueprintId body).1.status = 400 ∧
      (∀ (r : MarkupRecord) (m : String),
        (postMarkup db blueprintId body).1 ≠ ApiOutcome.success r m) ∧
      (postMarkup db blueprintId body).2 = db ∧
      getMarkups (postMarkup db blueprintId body).2 blueprintId = getMarkups db blueprintId := by
  have hv : validateMarkupSave body = false := by
    unfold validateMarkupSave markupSaveSchemaAccepts
    rw [hname]
    simp
  have hpost : postMarkup db blueprintId body
      = (ApiOutcome.failure "Markup name is required" 400, db) := by
    unfold postMarkup
    rw [if_neg hbid, hfound, if_neg (by decide), hv, if_pos rfl]
  rw [hpost]
  exact ⟨rfl, fun r m h => ApiOutcome.noConfusion h, rfl, rfl⟩

/-- Witness for C6: the empty-name save against a store holding one
blueprint. -/
theorem saveNamed_empty_name_rejected_witness :
    (postMarkup sampleDb "b1" emptyNameBody).1.status = 400 ∧
      (postMarkup sampleDb "b1" emptyNameBody).2 = sampleDb :=
  ⟨(saveNamed_empty_name_rejected sampleDb "b1" emptyNameBody rfl (by decide) (by decide)).1,
    (saveNamed_empty_name_rejected sampleDb "b1" emptyNameBody rfl (by decide)
        (by decide)).2.2.1⟩

/-- C7: undo and redo never change the history stack; at the boundaries
each is a complete no-op; inside an invariant state, undo moves the index
down one and renders `stack[index]`, redo moves it up one and renders
`stack[index]`. -/
theorem undo_redo_frame (s : ViewerState) :
    (undo s).history = s.history ∧ (redo s).history = s.history ∧
      (s.historyIndex ≤ 0 → undo s = s) ∧
      ((s.history.length : Int) - 1 ≤ s.historyIndex → redo s = s) ∧
      (HistoryInv s → 0 < s.historyIndex →
        (undo s).historyIndex = s.historyIndex - 1 ∧
          jsGet s.history (s.historyIndex - 1) = some (undo s).elements) ∧
      (HistoryInv s → s.historyIndex < (s.history.length : Int) - 1 →
        (redo s).historyIndex = s.historyIndex + 1 ∧
          jsGet s.history (s.historyIndex + 1) = some (redo s).elements) := by
  refine ⟨undo_history s, redo_history s, ?_, ?_, ?_, ?_⟩
  · intro h
    unfold undo
    rw [if_neg (by omega)]
  · intro h
    unfold redo
    rw [if_neg (by omega)]
  · intro hinv h0
    obtain ⟨_, hidx, hget, _⟩ := undo_step s hinv h0
    exact ⟨hidx, hget⟩
  · intro hinv h0
    obtain ⟨_, hidx, hget, _⟩ := redo_step s hinv h0
    exact ⟨hidx, hget⟩

/-- Witness for C7: undo at the bottom of a fresh history is a no-op, and
undo after one commit steps the index back down. -/
theorem undo_redo_frame_witness :
    undo (loadedState []) = loadedState [] ∧
      (undo (commitElement elemA (loadedState []))).historyIndex
        = (commitElement elemA (loadedState [])).historyIndex - 1 :=
  ⟨(undo_redo_frame (loadedState [])).2.2.1 (by decide),
    ((undo_redo_frame (commitElement elemA (loadedState []))).2.2.2.2.1 (by decide)
        (by decide)).1⟩

/-- C8: no sequence of viewer operations drives the zoom outside
`[0.1, 3]`; zoom-in and zoom-out step by exactly 0.1 until clamped at the
bounds, and reset-view restores zoom 1 and pan (0, 0). -/
theorem zoom_clamped :
    (∀ ops : List Op,
      1/10 ≤ (applyOps ops initState).zoom ∧ (applyOps ops initState).zoom ≤ 3) ∧
      (∀ s : ViewerState, s.zoom + 1/10 ≤ 3 → (zoomIn s).zoom = s.zoom + 1/10) ∧
      (∀ s : ViewerState, 3 < s.zoom + 1/10 → (zoomIn s).zoom = 3) ∧
      (∀ s : ViewerState, 1/10 ≤ s.zoom - 1/10 → (zoomOut s).zoom = s.zoom - 1/10) ∧
      (∀ s : ViewerState, s.zoom - 1/10 < 1/10 → (zoomOut s).zoom = 1/10) ∧
      (∀ s : ViewerState,
        (resetView s).zoom = 1 ∧ (resetView s).panX = 0 ∧ (resetView s).panY = 0) := by
  refine ⟨?_, ?_, ?_, ?_, ?_, fun s => ⟨rfl, rfl, rfl⟩⟩
  · intro ops
    refine applyOps_zoomInv ops initState ⟨?_, ?_⟩
    · show (1 : ℚ)/10 ≤ 1
      norm_num
    · show (1 : ℚ) ≤ 3
      norm_num
  · exact fun s h => min_eq_right h
  · exact fun s h => min_eq_left (le_of_lt h)
  · exact fun s h => max_eq_right h
  · exact fun s h => max_eq_left (le_of_lt h)

/-- Witness for C8: one zoom-in and one zoom-out from the default zoom
step by exactly 0.1. -/
theorem zoom_clamped_witness :
    (zoomIn initState).zoom = initState.zoom + 1/10 ∧
      (zoomOut initState).zoom = initState.zoom - 1/10 :=
  ⟨zoom_clamped.2.1 initState (by norm_num [initState]),
    zoom_clamped.2.2.2.1 initState (by norm_num [initState])⟩

/-- C9: the rendered bounding box of a rectangle is unchanged when its
two corners are swapped; in particular start (50,50), end (10,10) renders
the same box as start (10,10), end (50,50). -/
theorem rectangle_direction_independent :
    (∀ (id color : String) (sw ts : Nat) (a b : Point),
      rectangleRenderBox (rectangleElement id color sw ts a b)
        = rectangleRenderBox (rectangleElement id color sw ts b a)) ∧
      rectangleRenderBox (rectangleElement "r1" "#238636" 3 0 ⟨50, 50⟩ ⟨10, 10⟩)
        = rectangleRenderBox (rectangleElement "r1" "#238636" 3 0 ⟨10, 10⟩ ⟨50, 50⟩) := by
  have hgen : ∀ (id color : String) (sw ts : Nat) (a b : Point),
      rectangleRenderBox (rectangleElement id color sw ts a b)
        = rectangleRenderBox (rectangleElement id color sw ts b a) := by
    intro id color sw ts a b
    unfold rectangleRenderBox rectangleElement strokeRectBox
    dsimp only
    have h1 : ∀ u v : ℚ, u + (v - u) = v := fun u v => by ring
    rw [h1, h1, h1, h1]
    rw [min_comm b.x a.x, min_comm b.y a.y, max_comm b.x a.x, max_comm b.y a.y]
  exact ⟨hgen, hgen "r1" "#238636" 3 0 ⟨50, 50⟩ ⟨10, 10⟩⟩

/-- C10: confirming text that trims to the empty string commits nothing —
elements, history and index all stay put — while text with content
commits a text label carrying the original untrimmed text and pushes
exactly one new snapshot with the index at the new last position. -/
theorem addText_commits_nonblank (id : String) (ts : Nat) (s : ViewerState) :
    (jsTrim s.textInput = "" →
      (handleAddText id ts s).elements = s.elements ∧
        (handleAddText id ts s).history = s.history ∧
        (handleAddText id ts s).historyIndex = s.historyIndex) ∧
      (jsTrim s.textInput ≠ "" →
        (handleAddText id ts s).elements = s.elements ++ [textLabel id ts s] ∧
          (textLabel id ts s).text = some s.textInput ∧
          (textLabel id ts s).type = Tool.text ∧
          (handleAddText id ts s).history
            = sliceTo s.history (s.historyIndex + 1) ++ [s.elements ++ [textLabel id ts s]] ∧
          (handleAddText id ts s).historyIndex
            = ((handleAddText id ts s).history.length : Int) - 1) := by
  constructor
  · intro h
    unfold handleAddText
    split
    · exact ⟨rfl, rfl, rfl⟩
    · rename_i hf
      exact absurd h hf
  · intro h
    unfold handleAddText
    split
    · rename_i hf
      exact absurd hf h
    · exact ⟨rfl, rfl, rfl, rfl, rfl⟩

/-- Witness for C10: whitespace-only pending text commits nothing, while
text with content appends exactly its label. -/
theorem addText_commits_nonblank_witness :
    (handleAddText "t1" 5 blankTextState).history = blankTextState.history ∧
      (handleAddText "t2" 6 sampleTextState).elements
        = sampleTextState.elements ++ [textLabel "t2" 6 sampleTextState] :=
  ⟨((addText_commits_nonblank "t1" 5 blankTextState).1 (by decide)).2.1,
    ((addText_commits_nonblank "t2" 6 sampleTextState).2 (by decide)).1⟩

end XTeam
